import Mathlib

/-!
Verification of the `wsh` shell (wsh.c) against its natural-language
specification.  The C source is shallowly embedded: each C function that the
claims mention is translated into a Lean definition of the same name (camel
cased), operating on `String` / `List` values in place of C buffers.  Child
processes and file descriptors are modelled by their observable effect on the
interpreter (an outcome value), with `pipe`/`fork` failure injected through a
`SysCond` record.
-/

namespace Wsh

/-! ## String utilities: models of `strtok`, `strspn` and `atoi` -/

/-- Delimiter set of `strtok(input, " \n")` used by `process_input`. -/
def isSpaceNL (c : Char) : Bool := c = ' ' || c = '\n'

/-- Delimiter set of `strtok(tempInput, " \t\n")` used for the first token in
`parse_and_execute`. -/
def isSpaceTabNL (c : Char) : Bool := c = ' ' || c = '\t' || c = '\n'

/-- Whitespace set `" \t\n\v\f\r"` of the `strspn` test in `add_to_history`. -/
def isHistWhitespace (c : Char) : Bool :=
  c = ' ' || c = '\t' || c = '\n' || c = '\x0b' || c = '\x0c' || c = '\r'

/-- Accumulator-based splitter: `strtokSplitAux p cs acc` walks `cs`, growing
the current token `acc` (reversed) and emitting it whenever a delimiter is
met.  Like `strtok`, it never produces empty tokens. -/
def strtokSplitAux (p : Char → Bool) : List Char → List Char → List (List Char)
  | [], acc => if acc.isEmpty then [] else [acc.reverse]
  | c :: cs, acc =>
    if p c then
      if acc.isEmpty then strtokSplitAux p cs []
      else acc.reverse :: strtokSplitAux p cs []
    else strtokSplitAux p cs (c :: acc)

/-- Repeated `strtok(·, delims)`: the maximal delimiter-free substrings. -/
def strtokSplit (p : Char → Bool) (s : String) : List String :=
  (strtokSplitAux p s.toList []).map String.mk

/-- Digit-prefix accumulator of C `atoi`. -/
def atoiDigits : List Char → Nat → Nat
  | [], acc => acc
  | c :: cs, acc =>
    if c.isDigit then atoiDigits cs (acc * 10 + (c.toNat - 48)) else acc

/-- C `atoi`: skip leading whitespace, optional sign, then the digit prefix;
no digits gives 0. -/
def atoi (s : String) : Int :=
  match s.toList.dropWhile isHistWhitespace with
  | '-' :: rest => -(atoiDigits rest 0 : Int)
  | '+' :: rest => (atoiDigits rest 0 : Int)
  | rest => (atoiDigits rest 0 : Int)

/-- The `name = strtok(argv[1], "="); value = strtok(NULL, "")` pair used by
`built_in_command` for `export`/`local`.  The first call skips leading `=`
signs and stops at the next `=`; the second call returns the remainder after
that single `=` if it is non-empty, else NULL (`none`). -/
def splitNameValue (s : String) : Option String × Option String :=
  let cs := s.toList.dropWhile (fun c => c = '=')
  if cs.isEmpty then (none, none)
  else
    let name := cs.takeWhile (fun c => c ≠ '=')
    let after := (cs.dropWhile (fun c => c ≠ '=')).drop 1
    (some (String.mk name), if after.isEmpty then none else some (String.mk after))

/-! ## Tokenisation (`process_input`, pipe splitting, first token) -/

/-- `process_input`: tokenize on `" \n"` (capped at `MAX_ARGS - 1 = 127`
tokens); if the last token is exactly `&`, drop it and set the background
flag. -/
def processInput (input : String) : List String × Bool :=
  let toks := (strtokSplit isSpaceNL input).take 127
  if toks.getLast? = some "&" then (toks.dropLast, true) else (toks, false)

/-- The `strtok(input, "|")` loop of `parse_and_execute` (capped at 127
segments). -/
def splitPipes (input : String) : List String :=
  (strtokSplit (fun c => c = '|') input).take 127

/-- First token of the line, extracted with delimiters `" \t\n"` as in
`parse_and_execute`. -/
def firstTokenOf (input : String) : Option String :=
  (strtokSplit isSpaceTabNL input).head?

/-- `isBuiltInCommand`: membership in the fixed built-in name table. -/
def isBuiltInCommand (c : String) : Bool :=
  c = "cd" || c = "exit" || c = "history" || c = "export" || c = "local" ||
    c = "vars"

/-! ## History ring -/

/-- The global history state: `history[0..count-1]` (oldest first, as in the
C array), `history_capacity`, and `add_to_history_enabled`. -/
structure HistState where
  history : List String
  capacity : Nat
  enabled : Bool
  deriving Repr, DecidableEq

/-- `strspn(cmd, " \t\n\v\f\r") == strlen(cmd)`: the line is empty or all
whitespace. -/
def histWhitespaceOnly (cmd : String) : Bool := cmd.toList.all isHistWhitespace

/-- `add_to_history`: skip when recording is disabled, the line is empty or
all whitespace, or it repeats the most recent entry; at capacity, drop the
oldest entry before appending. -/
def addToHistory (h : HistState) (cmd : String) : HistState :=
  if h.enabled = false ∨ cmd = "" ∨ histWhitespaceOnly cmd = true then h
  else if h.history.getLast? = some cmd then h
  else
    let hist := if h.history.length = h.capacity then h.history.drop 1
                else h.history
    { h with history := hist ++ [cmd] }

/-- `set_history_size`: negative sizes are rejected; size 0 disables future
recording; the while-loop evicts oldest entries until the occupancy is at
most the new size; the capacity is updated. -/
def setHistorySize (h : HistState) (newSize : Int) : HistState :=
  if newSize < 0 then h
  else
    let n := newSize.toNat
    { history := h.history.drop (h.history.length - n)
      capacity := n
      enabled := decide (0 < n) }

/-- `print_history`: entry `history[i]` is printed with position
`count - i`, i.e. newest first with 1-based positions. -/
def printHistory (h : HistState) : List (Nat × String) :=
  (h.history.reverse.enum).map (fun p => (p.1 + 1, p.2))

/-! ## Variable store and variable substitution -/

/-- A `LocalVar` of the C source: one (name, value) pair of `localVars`. -/
structure LocalVar where
  name : String
  value : String
  deriving Repr, DecidableEq

/-- `getenv`: the process environment is an association list; `none` models
NULL (name unbound).  A name bound to `""` yields `some ""`, as `getenv`
does. -/
def envLookup (env : List (String × String)) (n : String) : Option String :=
  (env.find? (fun p => p.1 = n)).map (fun p => p.2)

/-- The linear scan of `localVars` in `substitute_variable` (first match
wins). -/
def localLookup (ls : List LocalVar) (n : String) : Option String :=
  (ls.find? (fun v => v.name = n)).map (fun v => v.value)

/-- `substitute_variable`: a token starting with `$` is replaced by the
environment value if `getenv` finds one, else the local store's value, else
`""`; a found value equal to `""` is also replaced by `""`.  Other tokens
are untouched. -/
def substituteVariable (env : List (String × String)) (ls : List LocalVar)
    (arg : String) : String :=
  match arg.toList with
  | [] => arg
  | c :: rest =>
    if c = '$' then
      let varName := String.mk rest
      let varValue :=
        match envLookup env varName with
        | some v => some v
        | none => localLookup ls varName
      match varValue with
      | none => ""
      | some v => if v = "" then "" else v
    else arg

/-- The resolution rule in the spec's words (§4.2): the process-environment
value if bound there, else the Variable Store's value if bound there, else
an empty string.  Stated separately so the code's `substitute_variable` can
be proved to refine it. -/
def specResolve (env : List (String × String)) (ls : List LocalVar)
    (name : String) : String :=
  match envLookup env name with
  | some v => v
  | none =>
    match localLookup ls name with
    | some v => v
    | none => ""

/-! ## Command validation (`isValidCommand`) -/

/-- `isValidCommand`: the argument-shape checks run by `execute_command`
after substitution.  Each violated check prints a diagnostic and yields
false. -/
def isValidCommand (argv : List String) : Bool :=
  match argv with
  | [] => false
  | a0 :: rest =>
    if a0 = "" then false
    else if a0 = "cd" then decide (rest.length = 1)
    else if a0 = "exit" then rest.isEmpty
    else if a0 = "export" ∨ a0 = "local" then
      match rest with
      | [a1] => a1.toList.contains '='
      | _ => false
    else if a0 = "history" then
      match rest with
      | [] => true
      | a1 :: r =>
        if a1 = "set" then
          match r with
          | [a2] => decide (0 < atoi a2)
          | _ => false
        else false
    else true

/-! ## Execution-outcome model (pipeline executor)

Child processes are observed through the parent's behaviour only: whether the
interpreter waited, detached, or itself exited.  `SysCond` injects the
fallible system calls. -/

/-- Success/failure of the `pipe` and `fork` system calls. -/
structure SysCond where
  pipeOk : Bool
  forkOk : Bool
  deriving Repr, DecidableEq

/-- What one call of `parse_and_execute` does to the interpreter process for
a given line. -/
inductive LineOutcome where
  /-- The line was dispatched to a built-in handler. -/
  | builtin : LineOutcome
  /-- `execute_command` validation failed; nothing was spawned. -/
  | invalid : LineOutcome
  /-- The parent waited for `n` children (foreground). -/
  | waitedAll : Nat → LineOutcome
  /-- The parent printed the PID of the given stage and did not wait. -/
  | detachedReport : Nat → LineOutcome
  /-- The interpreter process itself terminated with this status. -/
  | shellExit : Int → LineOutcome
  deriving Repr, DecidableEq

/-- `execute_piped_commands`: a failed `pipe` (attempted when there are at
least two stages) or a failed `fork` calls `exit(EXIT_FAILURE)` in the
interpreter; otherwise the parent waits for all `numCmds` children unless
`background` is set, in which case it reports the last stage's PID and
returns at once. -/
def executePipedCommands (cond : SysCond) (numCmds : Nat) (background : Bool) :
    LineOutcome :=
  if 2 ≤ numCmds ∧ cond.pipeOk = false then LineOutcome.shellExit 1
  else if 1 ≤ numCmds ∧ cond.forkOk = false then LineOutcome.shellExit 1
  else if background then LineOutcome.detachedReport (numCmds - 1)
  else LineOutcome.waitedAll numCmds

/-- `execute_command`: substitute each token, drop tokens that became empty,
validate; a failed `fork` calls `exit(-1)` in the interpreter; otherwise
wait for the single child, or report its PID when backgrounded. -/
def executeCommandOutcome (cond : SysCond) (env : List (String × String))
    (ls : List LocalVar) (argv : List String) (background : Bool) :
    LineOutcome :=
  let filtered := (argv.map (substituteVariable env ls)).filter (· != "")
  if isValidCommand filtered = false then LineOutcome.invalid
  else if cond.forkOk = false then LineOutcome.shellExit (-1)
  else if background then LineOutcome.detachedReport 0
  else LineOutcome.waitedAll 1

/-- The non-built-in arm of `parse_and_execute`: split on `|`; one segment
goes through `process_input` + `execute_command`; several segments go to
`execute_piped_commands`, which the source calls with its local variable
`background` — initialised to 0 and never assigned on this path, so the call
is always made with `background = false` (the `&` detection inside
`process_input` runs only in each forked child). -/
def parseAndExecuteOutcome (cond : SysCond) (env : List (String × String))
    (ls : List LocalVar) (input : String) : LineOutcome :=
  match firstTokenOf input with
  | none => LineOutcome.invalid
  | some t =>
    if isBuiltInCommand t then LineOutcome.builtin
    else
      let commands := splitPipes input
      if commands.length = 1 then
        let p := processInput (commands.headD "")
        executeCommandOutcome cond env ls p.1 p.2
      else
        executePipedCommands cond commands.length false

/-- The argv that is handed to `execvp` for stage `i` of a line: the
single-segment path substitutes variables and filters empty tokens
(`execute_command`); the multi-segment path `exec`s the raw
`process_input` tokens of segment `i` with no substitution (the child code
in `execute_piped_commands`). -/
def execArgvForStage (env : List (String × String)) (ls : List LocalVar)
    (input : String) (i : Nat) : List String :=
  let commands := splitPipes input
  if commands.length = 1 then
    ((processInput (commands.headD "")).1.map
        (substituteVariable env ls)).filter (· != "")
  else
    (processInput (commands.getD i "")).1

/-! ## Full interpreter-state model

The mutable state that `parse_and_execute` and the built-in handlers touch:
the `chdir` calls issued by `cmd_cd` (the argument may be NULL when `cd` has
no argument), the process environment, `localVars`, the history globals, and
whether `exit(0)` was reached.  External child processes never mutate this
state, so the non-built-in arm only appends to history. -/

structure InterpState where
  chdirCalls : List (Option String)
  env : List (String × String)
  locals : List LocalVar
  hist : HistState
  exited : Bool
  deriving Repr, DecidableEq

/-- `unsetenv`. -/
def unsetenvF (env : List (String × String)) (n : String) :
    List (String × String) :=
  env.filter (fun p => p.1 != n)

/-- `setenv(name, value, 1)`: overwrite if present, else append. -/
def setenvF (env : List (String × String)) (n v : String) :
    List (String × String) :=
  if env.any (fun p => p.1 = n) then
    env.map (fun p => if p.1 = n then (n, v) else p)
  else env ++ [(n, v)]

/-- `cmd_export`: NULL name prints usage; NULL or empty value unsets; else
sets the environment variable. -/
def cmdExport (s : InterpState) (name value : Option String) : InterpState :=
  match name with
  | none => s
  | some n =>
    if value = none ∨ value = some "" then { s with env := unsetenvF s.env n }
    else
      match value with
      | some v => { s with env := setenvF s.env n v }
      | none => s

/-- The removal loop of `cmd_local` (first matching entry is shifted out). -/
def removeFirstLocal : List LocalVar → String → List LocalVar
  | [], _ => []
  | v :: vs, n => if v.name = n then vs else v :: removeFirstLocal vs n

/-- The update branch of `cmd_local` (first matching entry overwritten). -/
def updateFirstLocal : List LocalVar → String → String → List LocalVar
  | [], _, _ => []
  | v :: vs, n, val =>
    if v.name = n then { name := n, value := val } :: vs
    else v :: updateFirstLocal vs n val

/-- `cmd_local`: NULL or empty value removes the binding if present; else
update an existing binding or append a new one while fewer than
`MAX_LOCAL_VARS = 128` are stored.  (With a NULL name the C scans with
`strcmp(·, NULL)`; the claims never reach that case and it is modelled as no
effect.) -/
def cmdLocal (s : InterpState) (name value : Option String) : InterpState :=
  match name, value with
  | none, _ => s
  | some n, none => { s with locals := removeFirstLocal s.locals n }
  | some n, some v =>
    if v = "" then { s with locals := removeFirstLocal s.locals n }
    else if s.locals.any (fun lv => lv.name = n) then
      { s with locals := updateFirstLocal s.locals n v }
    else if s.locals.length < 128 then
      { s with locals := s.locals ++ [{ name := n, value := v }] }
    else s

/-- `built_in_command` for every built-in except the `history` family (which
needs the recursion fuel and is handled at the call site): `exit` with
arguments is an error, alone it terminates the interpreter; `cd` passes
`argv[1]` (possibly NULL) to `chdir`; `export`/`local` split `argv[1]` at
`=` when present; `vars` only prints. -/
def builtInNoHistory (s : InterpState) (argv : List String) : InterpState :=
  match argv with
  | [] => s
  | a0 :: rest =>
    if a0 = "exit" then
      if rest.isEmpty then { s with exited := true } else s
    else if a0 = "cd" then
      { s with chdirCalls := s.chdirCalls ++ [rest.head?] }
    else if a0 = "export" ∧ rest ≠ [] then
      let nv := splitNameValue (rest.headD "")
      cmdExport s nv.1 nv.2
    else if a0 = "local" ∧ rest ≠ [] then
      let nv := splitNameValue (rest.headD "")
      cmdLocal s nv.1 nv.2
    else s

/-- `add_to_history_enabled = false` before the recalled line runs
(`execute_history_command`). -/
def withDisabled (s : InterpState) : InterpState :=
  { s with hist := { s.hist with enabled := false } }

/-- `add_to_history_enabled = oldHistoryState` after the recalled line ran
(`execute_history_command`). -/
def restoreEnabled (s1 : InterpState) (e : Bool) : InterpState :=
  { s1 with hist := { s1.hist with enabled := e } }

/-- `parse_and_execute`, as a transformer of the interpreter state.  The
first token classifies the line; a built-in line is dispatched to
`built_in_command` (a bare `history` prints); `history set` resizes;
`history <k>` is `execute_history_command` inlined: in range, it re-executes
the recalled entry `history[count - k]` with recording disabled and then
restores the previous recording flag.  A non-built-in line is executed
externally (no interpreter-state effect) and then appended to history.
`fuel` bounds the recall recursion depth; at 0 the model stops (the C
recursion is finite on every state the shell builds, since recorded lines
are never history built-ins). -/
def parseAndExecuteFull : Nat → InterpState → String → InterpState
  | 0, s, _ => s
  | Nat.succ fuel, s, input =>
    match firstTokenOf input with
    | none => s
    | some t =>
      if isBuiltInCommand t then
        if t = "history" ∧ ((processInput input).1).length ≤ 1 then s
        else
          match (processInput input).1 with
          | "history" :: a1 :: r =>
            if a1 = "set" ∧ r ≠ [] then
              { s with hist := setHistorySize s.hist (atoi (r.headD "")) }
            else if atoi a1 < 1 ∨ (s.hist.history.length : Int) < atoi a1 then s
            else
              restoreEnabled
                (parseAndExecuteFull fuel (withDisabled s)
                  (s.hist.history.getD
                    (s.hist.history.length - (atoi a1).toNat) ""))
                s.hist.enabled
          | argv' => builtInNoHistory s argv'
      else
        { s with hist := addToHistory s.hist input }

/-- `execute_history_command`: reject an out-of-range number, else look up
entry `history[count - k]`, disable recording, run the line through
`parse_and_execute`, and restore the previous recording flag.  (The same
steps are inlined at the recall call site inside `parseAndExecuteFull`.) -/
def executeHistoryCommandFull (fuel : Nat) (s : InterpState) (k : Int) :
    InterpState :=
  if k < 1 ∨ (s.hist.history.length : Int) < k then s
  else
    restoreEnabled
      (parseAndExecuteFull fuel (withDisabled s)
        (s.hist.history.getD (s.hist.history.length - k.toNat) ""))
      s.hist.enabled

/-- The history state of a fresh shell: `MAX_HISTORY = 5`, recording on. -/
def histInit : HistState := { history := [], capacity := 5, enabled := true }

/-- A fresh interpreter state. -/
def stateInit : InterpState :=
  { chdirCalls := [], env := [], locals := [], hist := histInit, exited := false }

/-- A line whose first token is not a built-in name (or that has no token):
the invariant satisfied by every line the shell ever records, since
`parse_and_execute` appends only non-built-in lines. -/
def nonBuiltinToken (line : String) : Bool :=
  match firstTokenOf line with
  | none => true
  | some t => !isBuiltInCommand t

/-! ## Helper lemmas -/

theorem enumFrom_map_snd {α : Type} :
    ∀ (n : Nat) (l : List α), (List.enumFrom n l).map Prod.snd = l
  | _, [] => rfl
  | n, a :: l => by
    simp only [List.enumFrom, List.map_cons]
    exact congrArg (a :: ·) (enumFrom_map_snd (n + 1) l)

theorem enumFrom_map_fst_succ {α : Type} :
    ∀ (n : Nat) (l : List α),
      (List.enumFrom n l).map (fun p => p.1 + 1) = List.range' (n + 1) l.length
  | _, [] => rfl
  | n, a :: l => by
    simp only [List.enumFrom, List.map_cons, List.length_cons, List.range'_succ]
    exact congrArg ((n + 1) :: ·) (enumFrom_map_fst_succ (n + 1) l)

/-- `printHistory` lists exactly the stored entries, newest first. -/
theorem printHistory_map_snd (h : HistState) :
    (printHistory h).map Prod.snd = h.history.reverse := by
  unfold printHistory
  rw [List.map_map]
  have hc : (Prod.snd ∘ fun p : Nat × String => (p.1 + 1, p.2)) = Prod.snd := by
    funext p; rfl
  rw [hc]
  exact enumFrom_map_snd 0 h.history.reverse

/-- `printHistory` numbers its lines 1, 2, …, occupancy. -/
theorem printHistory_map_fst (h : HistState) :
    (printHistory h).map Prod.fst = List.range' 1 h.history.length := by
  unfold printHistory
  rw [List.map_map]
  have hc : (Prod.fst ∘ fun p : Nat × String => (p.1 + 1, p.2)) =
      (fun p : Nat × String => p.1 + 1) := by
    funext p; rfl
  rw [hc]
  simpa [List.enum] using enumFrom_map_fst_succ 0 h.history.reverse

end Wsh

namespace Wsh

/-! ## Claim theorems -/

/-- C6: a token beginning with `$` resolves to the process-environment value
if the name is bound there, else the variable store's value if bound there,
else the empty string (`specResolve` states that rule in the spec's words);
in particular an environment binding always shadows a same-named local
binding, and an unknown name yields `""` rather than an error. -/
theorem substituteVariable_matches_spec (env : List (String × String))
    (ls : List LocalVar) (rest : List Char) :
    substituteVariable env ls (String.mk ('$' :: rest)) =
      specResolve env ls (String.mk rest) := by
  cases he : envLookup env (String.mk rest) with
  | some v =>
    by_cases hv : v = ""
    · subst hv; simp [substituteVariable, specResolve, he]
    · simp [substituteVariable, specResolve, he, hv]
  | none =>
    cases hl : localLookup ls (String.mk rest) with
    | some v =>
      by_cases hv : v = ""
      · subst hv; simp [substituteVariable, specResolve, he, hl]
      · simp [substituteVariable, specResolve, he, hl, hv]
    | none => simp [substituteVariable, specResolve, he, hl]

/-- C7: appending a line identical to the most-recently-stored entry leaves
the history state unchanged (consecutive duplicates are coalesced). -/
theorem addToHistory_coalesces (h : HistState) (cmd : String)
    (hl : h.history.getLast? = some cmd) : addToHistory h cmd = h := by
  unfold addToHistory
  by_cases h1 : h.enabled = false ∨ cmd = "" ∨ histWhitespaceOnly cmd = true
  · rw [if_pos h1]
  · rw [if_neg h1, if_pos hl]

/-- C7 witness: after `ls`, appending `ls` again (its `getLast?` equals the
new line) is the identity, and the `ls`, `ls`, `pwd` sequence stores exactly
`[ls, pwd]`. -/
theorem addToHistory_coalesces_example :
    (addToHistory histInit "ls").history.getLast? = some "ls"
    ∧ addToHistory (addToHistory histInit "ls") "ls" = addToHistory histInit "ls"
    ∧ (addToHistory (addToHistory (addToHistory histInit "ls") "ls") "pwd").history
        = ["ls", "pwd"] :=
  ⟨by decide, addToHistory_coalesces _ _ (by decide), by decide⟩

/-- C8: appending never pushes occupancy above capacity (a distinct new line
at capacity evicts the oldest entry first), and `printHistory` lists the
stored entries newest-first with 1-based position numbers. -/
theorem addToHistory_capacity_printHistory (h : HistState) (cmd : String)
    (hcap : h.enabled = true → 0 < h.capacity)
    (hlen : h.history.length ≤ h.capacity) :
    (addToHistory h cmd).history.length ≤ h.capacity
    ∧ (h.enabled = true → cmd ≠ "" → histWhitespaceOnly cmd = false →
        h.history.getLast? ≠ some cmd → h.history.length = h.capacity →
        (addToHistory h cmd).history = h.history.drop 1 ++ [cmd])
    ∧ (printHistory h).map Prod.snd = h.history.reverse
    ∧ (printHistory h).map Prod.fst = List.range' 1 h.history.length := by
  refine ⟨?_, ?_, printHistory_map_snd h, printHistory_map_fst h⟩
  · by_cases h1 : h.enabled = false ∨ cmd = "" ∨ histWhitespaceOnly cmd = true
    · rw [addToHistory, if_pos h1]; exact hlen
    · by_cases h2 : h.history.getLast? = some cmd
      · rw [addToHistory, if_neg h1, if_pos h2]; exact hlen
      · rw [addToHistory, if_neg h1, if_neg h2]
        have hen : h.enabled = true := by
          cases hb : h.enabled with
          | false => exact absurd (Or.inl hb) h1
          | true => rfl
        have hpos := hcap hen
        by_cases h3 : h.history.length = h.capacity
        · simp only [if_pos h3, List.length_append, List.length_drop,
            List.length_cons, List.length_nil]
          omega
        · simp only [if_neg h3, List.length_append, List.length_cons,
            List.length_nil]
          omega
  · intro hen hne hws hdup hfull
    rw [addToHistory, if_neg ?side, if_neg hdup, if_pos hfull]
    case side =>
      rintro (hf | he | hw)
      · rw [hen] at hf; exact Bool.noConfusion hf
      · exact hne he
      · rw [hws] at hw; exact Bool.noConfusion hw

/-- C8 witness: with capacity 2 the sequence `a`, `b`, `c` stores `[b, c]`
(the oldest entry `a` evicted), never exceeds capacity, and `history`
prints `1) c`, `2) b`. -/
theorem addToHistory_capacity_example :
    ((addToHistory { history := ["a", "b"], capacity := 2, enabled := true } "c").history.length ≤ 2
      ∧ (addToHistory { history := ["a", "b"], capacity := 2, enabled := true } "c").history
          = ["b", "c"])
    ∧ (addToHistory (addToHistory (addToHistory
        { history := [], capacity := 2, enabled := true } "a") "b") "c").history
        = ["b", "c"]
    ∧ printHistory (addToHistory { history := ["a", "b"], capacity := 2, enabled := true } "c")
        = [(1, "c"), (2, "b")] :=
  ⟨⟨(addToHistory_capacity_printHistory
        { history := ["a", "b"], capacity := 2, enabled := true } "c"
        (fun _ => by decide) (by decide)).1,
    by decide⟩, by decide, by decide⟩

/-- C5 counterexample: with one stored entry, `history set 0` empties the
ring (the eviction loop runs until occupancy ≤ 0), so the stored entries are
not left unchanged as the claim states. -/
theorem setHistorySize_zero_clears_example :
    (setHistorySize { history := ["ls"], capacity := 5, enabled := true } 0).history = []
    ∧ ({ history := ["ls"], capacity := 5, enabled := true } : HistState).history ≠ [] := by
  decide

/-- C5 amended: resizing the ring to capacity 0 disables future appends and
immediately evicts every stored entry (the shrink loop evicts oldest entries
until occupancy is at most the new capacity, which is 0). -/
theorem setHistorySize_zero (h : HistState) (cmd : String) :
    (setHistorySize h 0).history = []
    ∧ (setHistorySize h 0).enabled = false
    ∧ addToHistory (setHistorySize h 0) cmd = setHistorySize h 0 := by
  have hz : setHistorySize h 0 =
      { history := [], capacity := 0, enabled := false } := by
    rw [setHistorySize, if_neg (by omega)]
    simp [Int.toNat_zero, List.drop_length]
  refine ⟨by rw [hz], by rw [hz], ?_⟩
  rw [hz, addToHistory, if_pos (Or.inl rfl)]

/-- C1: evaluation at the failing input.  A single-command line ending in
`&` is detached, but a two-stage pipeline ending in `&` is executed with
`background = 0` — `parse_and_execute` never assigns its `background` local
on the pipe path (the `&` detection in `process_input` runs only inside each
forked child) — so the parent waits for both stages.  A foreground
three-stage pipeline waits for all three children, as claimed. -/
theorem parseAndExecuteOutcome_detach_bug :
    parseAndExecuteOutcome ⟨true, true⟩ [] [] "sleep 5 &" =
      LineOutcome.detachedReport 0
    ∧ parseAndExecuteOutcome ⟨true, true⟩ [] [] "sleep 5 | cat &" =
      LineOutcome.waitedAll 2
    ∧ parseAndExecuteOutcome ⟨true, true⟩ [] [] "ls | sort | wc" =
      LineOutcome.waitedAll 3 := by
  decide

/-- C3 counterexample: with `pipe` failing, the two-stage line `ls | wc`
makes the interpreter process itself exit with `EXIT_FAILURE`; with `fork`
failing, even a single command exits the interpreter with status `-1`.  The
claim says such failures abort only the current pipeline and the interpreter
keeps accepting lines. -/
theorem resourceFailure_exits_example :
    parseAndExecuteOutcome ⟨false, true⟩ [] [] "ls | wc" = LineOutcome.shellExit 1
    ∧ parseAndExecuteOutcome ⟨true, false⟩ [] [] "ls" = LineOutcome.shellExit (-1) := by
  decide

/-- C3 amended: a pipe-allocation failure on any multi-stage external
pipeline terminates the interpreter process itself with `EXIT_FAILURE`
(and a fork failure likewise exits, with status `-1` on the single-command
path); the failure is not confined to the current pipeline attempt. -/
theorem resourceFailure_exits (cond : SysCond) (env : List (String × String))
    (ls : List LocalVar) (input t : String)
    (hft : firstTokenOf input = some t) (hbi : isBuiltInCommand t = false)
    (hpipe : cond.pipeOk = false) (hn : 2 ≤ (splitPipes input).length) :
    parseAndExecuteOutcome cond env ls input = LineOutcome.shellExit 1 := by
  unfold parseAndExecuteOutcome
  rw [hft]
  simp only [hbi, Bool.false_eq_true, if_false]
  rw [if_neg (by omega)]
  rw [executePipedCommands, if_pos ⟨hn, hpipe⟩]

/-- C3 witness: the amended statement at the concrete input `ls | wc` with
`pipe` failing. -/
theorem resourceFailure_exits_witness :
    firstTokenOf "ls | wc" = some "ls"
    ∧ isBuiltInCommand "ls" = false
    ∧ 2 ≤ (splitPipes "ls | wc").length
    ∧ parseAndExecuteOutcome ⟨false, true⟩ [] [] "ls | wc" = LineOutcome.shellExit 1 :=
  ⟨by decide, by decide, by decide,
    resourceFailure_exits ⟨false, true⟩ [] [] "ls | wc" "ls" (by decide)
      (by decide) rfl (by decide)⟩

/-- C2 counterexample: in the two-stage line `echo $X | cat` with `X` bound
to `hello` in the store, stage 0 is executed with the literal token `$X`
(no substitution happens on the pipe path), although resolving it would
yield `hello` — as the single-command line `echo $X` shows. -/
theorem pipelineStage_no_substitution_example :
    execArgvForStage [] [{ name := "X", value := "hello" }] "echo $X | cat" 0
      = ["echo", "$X"]
    ∧ substituteVariable [] [{ name := "X", value := "hello" }] "$X" = "hello"
    ∧ execArgvForStage [] [{ name := "X", value := "hello" }] "echo $X" 0
      = ["echo", "hello"] := by
  decide

/-- C2 amended: variable substitution is applied only on the single-command
path; every stage of a multi-stage pipeline is executed with its raw tokens,
so its argv does not depend on the environment or the variable store at
all. -/
theorem pipelineStage_ignores_variables (env : List (String × String))
    (ls : List LocalVar) (input : String) (i : Nat)
    (hn : 2 ≤ (splitPipes input).length) :
    execArgvForStage env ls input i = execArgvForStage [] [] input i := by
  unfold execArgvForStage
  rw [if_neg (by omega), if_neg (by omega)]

/-- C2 witness: the amended statement at the concrete two-stage input. -/
theorem pipelineStage_ignores_variables_witness :
    2 ≤ (splitPipes "echo $X | cat").length
    ∧ execArgvForStage [] [{ name := "X", value := "hello" }] "echo $X | cat" 0
        = execArgvForStage [] [] "echo $X | cat" 0 :=
  ⟨by decide,
    pipelineStage_ignores_variables [] [{ name := "X", value := "hello" }]
      "echo $X | cat" 0 (by decide)⟩

theorem getD_mem_of_lt {α : Type} :
    ∀ (l : List α) (n : Nat) (d : α), n < l.length → l.getD n d ∈ l
  | [], n, _, h => absurd h (by simp)
  | a :: l, 0, d, _ => by simp [List.getD]
  | a :: l, Nat.succ n, d, h => by
    have := getD_mem_of_lt l n d (by simpa using h)
    simp only [List.getD_cons_succ]
    exact List.mem_cons_of_mem a this

theorem cmdExport_hist (s : InterpState) (name value : Option String) :
    (cmdExport s name value).hist = s.hist := by
  unfold cmdExport
  split
  · rfl
  split
  · rfl
  split <;> rfl

theorem cmdLocal_hist (s : InterpState) (name value : Option String) :
    (cmdLocal s name value).hist = s.hist := by
  unfold cmdLocal
  split
  · rfl
  · rfl
  split
  · rfl
  split
  · rfl
  split <;> rfl

/-- No built-in other than the `history` family touches the history state. -/
theorem builtInNoHistory_hist (s : InterpState) (argv : List String) :
    (builtInNoHistory s argv).hist = s.hist := by
  unfold builtInNoHistory
  split
  · rfl
  split
  · split <;> rfl
  split
  · rfl
  split
  · exact cmdExport_hist _ _ _
  split
  · exact cmdLocal_hist _ _ _
  rfl

theorem setHistorySize_hist_drop (h : HistState) (n : Int) :
    ∃ k, (setHistorySize h n).history = h.history.drop k := by
  unfold setHistorySize
  by_cases hn : n < 0
  · exact ⟨0, by rw [if_pos hn, List.drop_zero]⟩
  · exact ⟨h.history.length - n.toNat, by rw [if_neg hn]⟩

/-- With recording disabled, `parse_and_execute` on a line that is not a
built-in (or has no token at all) is a no-op on the whole interpreter
state: the only thing such a line does to the state is `add_to_history`,
which returns at once. -/
theorem parseAndExecuteFull_disabled_nonbuiltin (fuel : Nat) (s : InterpState)
    (cmd : String) (hdis : s.hist.enabled = false)
    (hnb : nonBuiltinToken cmd = true) :
    parseAndExecuteFull fuel s cmd = s := by
  cases fuel with
  | zero => rfl
  | succ fuel =>
    cases hft : firstTokenOf cmd with
    | none => simp only [parseAndExecuteFull, hft]
    | some t =>
      have hb : isBuiltInCommand t = false := by
        unfold nonBuiltinToken at hnb
        rw [hft] at hnb
        simpa using hnb
      have hb' : ¬ (isBuiltInCommand t = true) := by rw [hb]; decide
      simp only [parseAndExecuteFull, hft]
      rw [if_neg hb', addToHistory, if_pos (Or.inl hdis)]

/-- C9: recalling an in-range history entry leaves the interpreter state —
history entries and the recording flag included — exactly as it was: the
entry is re-executed with recording disabled, so the recalled line is not
re-recorded, and the prior flag is restored afterwards.  The hypothesis
that stored entries never start with a built-in name is the invariant the
shell maintains (`parse_and_execute` appends only non-built-in lines). -/
theorem executeHistoryCommand_no_self_record (fuel : Nat) (s : InterpState)
    (k : Int) (hlo : 1 ≤ k) (hhi : k ≤ (s.hist.history.length : Int))
    (hinv : ∀ e ∈ s.hist.history, nonBuiltinToken e = true) :
    executeHistoryCommandFull fuel s k = s := by
  have hlt : s.hist.history.length - k.toNat < s.hist.history.length := by
    omega
  have hmem := getD_mem_of_lt s.hist.history
    (s.hist.history.length - k.toNat) "" hlt
  have hinner := parseAndExecuteFull_disabled_nonbuiltin fuel (withDisabled s)
    (s.hist.history.getD (s.hist.history.length - k.toNat) "")
    rfl (hinv _ hmem)
  rw [executeHistoryCommandFull, if_neg (by omega), hinner]
  rfl

/-- C9 witness: recalling entry 2 of a two-entry history (both entries
external command lines) returns the state unchanged. -/
theorem executeHistoryCommand_no_self_record_witness :
    (1 : Int) ≤ 2
    ∧ (2 : Int) ≤
        (({ stateInit with
            hist := { histInit with history := ["ls", "pwd"] } } :
              InterpState).hist.history.length : Int)
    ∧ (∀ e ∈ ({ stateInit with
          hist := { histInit with history := ["ls", "pwd"] } } :
            InterpState).hist.history, nonBuiltinToken e = true)
    ∧ executeHistoryCommandFull 3
        { stateInit with hist := { histInit with history := ["ls", "pwd"] } } 2
        = { stateInit with hist := { histInit with history := ["ls", "pwd"] } } :=
  ⟨by decide, by decide, by decide,
    executeHistoryCommand_no_self_record 3
      { stateInit with hist := { histInit with history := ["ls", "pwd"] } } 2
      (by decide) (by decide) (by decide)⟩

/-- Any line executed from a state with recording disabled, or whose first
token is a built-in name, can only shrink the stored entry list from the
front (a `history set` eviction): the resulting entries are a `drop` of the
original ones, so nothing is ever appended on such a line. -/
theorem parseAndExecuteFull_hist_drop :
    ∀ (fuel : Nat) (s : InterpState) (input : String),
      s.hist.enabled = false ∨
        (∃ t, firstTokenOf input = some t ∧ isBuiltInCommand t = true) →
      ∃ k, (parseAndExecuteFull fuel s input).hist.history =
        s.hist.history.drop k := by
  intro fuel
  induction fuel with
  | zero => exact fun s input _ => ⟨0, by rw [List.drop_zero]; rfl⟩
  | succ fuel ih =>
    intro s input hcase
    cases hft : firstTokenOf input with
    | none =>
      simp only [parseAndExecuteFull, hft]
      exact ⟨0, by rw [List.drop_zero]⟩
    | some t =>
      by_cases hb : isBuiltInCommand t = true
      · simp only [parseAndExecuteFull, hft]
        rw [if_pos hb]
        by_cases hp : t = "history" ∧ ((processInput input).1).length ≤ 1
        · rw [if_pos hp]; exact ⟨0, by rw [List.drop_zero]⟩
        · rw [if_neg hp]
          split
          · rename_i a1 r _
            by_cases hset : a1 = "set" ∧ r ≠ []
            · rw [if_pos hset]
              obtain ⟨k, hk⟩ := setHistorySize_hist_drop s.hist (atoi (r.headD ""))
              exact ⟨k, hk⟩
            · rw [if_neg hset]
              by_cases hrange :
                  atoi a1 < 1 ∨ (s.hist.history.length : Int) < atoi a1
              · rw [if_pos hrange]; exact ⟨0, by rw [List.drop_zero]⟩
              · rw [if_neg hrange]
                obtain ⟨k, hk⟩ := ih (withDisabled s)
                  (s.hist.history.getD
                    (s.hist.history.length - (atoi a1).toNat) "")
                  (Or.inl rfl)
                exact ⟨k, hk⟩
          · exact ⟨0, by rw [builtInNoHistory_hist, List.drop_zero]⟩
      · have hdis : s.hist.enabled = false := by
          rcases hcase with h | ⟨t', ht', hb'⟩
          · exact h
          · rw [hft] at ht'; cases ht'; exact absurd hb' hb
        simp only [parseAndExecuteFull, hft]
        rw [if_neg hb, addToHistory, if_pos (Or.inl hdis)]
        exact ⟨0, by rw [List.drop_zero]⟩

/-- C10: a line whose first token is a built-in name is never appended to
the history ring by `parse_and_execute`: the stored entries afterwards are a
suffix (`drop`) of the entries before, so no new entry — in particular not
the line itself — was recorded.  (Only non-built-in lines, the ones handed
to external execution, reach `add_to_history`.) -/
theorem builtin_lines_not_recorded (fuel : Nat) (s : InterpState)
    (input t : String) (hft : firstTokenOf input = some t)
    (hbi : isBuiltInCommand t = true) :
    ∃ k, (parseAndExecuteFull fuel s input).hist.history =
      s.hist.history.drop k :=
  parseAndExecuteFull_hist_drop fuel s input (Or.inr ⟨t, hft, hbi⟩)

/-- C10 witness: the built-in line `cd /tmp` leaves a fresh state's history
a suffix of what it was. -/
theorem builtin_lines_not_recorded_witness :
    firstTokenOf "cd /tmp" = some "cd"
    ∧ isBuiltInCommand "cd" = true
    ∧ ∃ k, (parseAndExecuteFull 1 stateInit "cd /tmp").hist.history =
        stateInit.hist.history.drop k :=
  ⟨by decide, by decide,
    builtin_lines_not_recorded 1 stateInit "cd /tmp" "cd" (by decide) (by decide)⟩

/-- C4: evaluation at failing inputs.  Built-in lines bypass
`isValidCommand` entirely, so malformed built-ins run with side effects and
no diagnostic: `cd /tmp extra` (two arguments) still issues `chdir("/tmp")`;
`export PATH` (no `=`) unsets `PATH`; `history set abc` (not a positive
integer) passes `atoi("abc") = 0` to `set_history_size`, disabling
recording.  The interpreter does keep running (`exited = false`). -/
theorem builtin_validation_bypassed_example :
    (parseAndExecuteFull 1 stateInit "cd /tmp extra").chdirCalls = [some "/tmp"]
    ∧ (parseAndExecuteFull 1
        { stateInit with env := [("PATH", "/usr/bin")] } "export PATH").env = []
    ∧ (parseAndExecuteFull 1 stateInit "history set abc").hist.enabled = false
    ∧ (parseAndExecuteFull 1 stateInit "cd /tmp extra").exited = false := by
  decide

end Wsh
